import Mathlib

/-!
Verification of the FIT dive-file decoder and dive extractor of
`gramin_dive_app` (`src/js/fit-parser.js` and the dive-data module).

The decoder is embedded shallowly: the input buffer is a byte tape
`ℕ → ℕ` (each cell is a byte of the `Uint8Array`), multi-byte reads
mirror the `DataView` accessors, and the record-stream loop is a
fuel-indexed structural recursion (each iteration of the JS `while`
loop consumes at least the one header byte, so fuel `dataSize + 1`
is never exhausted for a buffer whose declared data section bounds
the scan).  Decoded scalars are exact: integers as `ℤ`, the two IEEE
float base types are kept as their raw bit patterns (the extractor
claims never interpret them), strings as `String`.  JavaScript `null`
and `undefined` are both `Option.none`; `NaN` results of arithmetic
on missing values are also modelled as `none`.
-/

namespace GraminDive

/-- A decoded scalar field value (JS `null`/`undefined` is `Option.none`
around this type). Integers are exact; float fields keep raw bits. -/
inductive FitVal where
  | num : ℤ → FitVal
  | str : String → FitVal
  | f32bits : ℕ → FitVal
  | f64bits : ℕ → FitVal
deriving DecidableEq, Repr

/-- One field descriptor of a definition record:
`{fieldDefNum, size, baseType}` (each one byte in the stream). -/
structure FieldDef where
  fieldDefNum : ℕ
  size : ℕ
  baseType : ℕ
deriving DecidableEq, Repr

/-- One developer-field descriptor `{fNum, size, devIdx}`; only `size`
is ever used (developer field bytes are skipped). -/
structure DevFieldDef where
  fNum : ℕ
  size : ℕ
  devIdx : ℕ
deriving DecidableEq, Repr

/-- The per-local-message-type definition stored by a definition record. -/
structure MessageDefn where
  globalMesgNum : ℕ
  fields : List FieldDef
  devFields : List DevFieldDef
  littleEndian : Bool
deriving DecidableEq, Repr

/-- A decoded data message: the global message number plus the decoded
fields.  Writes cons onto the front, so `List.lookup` (first match)
returns the most recently written value, matching JS object overwrite. -/
structure RawMessage where
  mesgNum : ℕ
  fields : List (ℕ × Option FitVal)
deriving DecidableEq, Repr

/-- Field access `r[k]` on a decoded message (`undefined`/`null` both
collapse to `none`, which is all the extractor ever observes). -/
def RawMessage.fieldVal (m : RawMessage) (k : ℕ) : Option FitVal :=
  (m.fields.lookup k).getD none

/-- The `DataView.getUint16(off, le)` read over the byte tape. -/
def u16 (buf : ℕ → ℕ) (le : Bool) (off : ℕ) : ℕ :=
  if le then buf off + 256 * buf (off + 1)
  else buf (off + 1) + 256 * buf off

/-- The `DataView.getUint32(off, le)` read over the byte tape. -/
def u32 (buf : ℕ → ℕ) (le : Bool) (off : ℕ) : ℕ :=
  if le then
    buf off + 256 * buf (off + 1) + 65536 * buf (off + 2) + 16777216 * buf (off + 3)
  else
    buf (off + 3) + 256 * buf (off + 2) + 65536 * buf (off + 1) + 16777216 * buf off

/-- The 64-bit read backing `getFloat64` (bits only). -/
def u64 (buf : ℕ → ℕ) (le : Bool) (off : ℕ) : ℕ :=
  if le then u32 buf true off + 4294967296 * u32 buf true (off + 4)
  else u32 buf false (off + 4) + 4294967296 * u32 buf false off

/-- Two's-complement reinterpretation of a `w`-bit unsigned read
(`getInt8`/`getInt16`/`getInt32`). -/
def toSigned (w : ℕ) (v : ℕ) : ℤ :=
  if v < 2 ^ (w - 1) then (v : ℤ) else (v : ℤ) - 2 ^ w

/-- The string case of `readFieldValue`: up to `size` bytes, stopping at
the first NUL, each remaining byte through `String.fromCharCode`. -/
def readChars (buf : ℕ → ℕ) (off : ℕ) : ℕ → List Char
  | 0 => []
  | n + 1 =>
    let c := buf off
    if c = 0 then [] else Char.ofNat c :: readChars buf (off + 1) n

/-- The scalar produced by `readFieldValue` for one field descriptor:
the base type's low 5 bits select representation and sentinel; a raw
value equal to the sentinel decodes to `none`; unrecognized base types
decode to `none`. -/
def decodeScalar (buf : ℕ → ℕ) (le : Bool) (off size baseType : ℕ) : Option FitVal :=
  match baseType % 32 with
  | 0 | 2 | 10 | 13 =>
    let v := buf off
    if v = 255 then none else some (.num v)
  | 1 =>
    let v := toSigned 8 (buf off)
    if v = 127 then none else some (.num v)
  | 3 =>
    let v := toSigned 16 (u16 buf le off)
    if v = 32767 then none else some (.num v)
  | 4 | 11 =>
    let v := u16 buf le off
    if v = 65535 then none else some (.num v)
  | 5 =>
    let v := toSigned 32 (u32 buf le off)
    if v = 2147483647 then none else some (.num v)
  | 6 | 12 =>
    let v := u32 buf le off
    if v = 4294967295 then none else some (.num v)
  | 7 => some (.str (String.mk (readChars buf off size)))
  | 8 => some (.f32bits (u32 buf le off))
  | 9 => some (.f64bits (u64 buf le off))
  | _ => none

/-- The function `readFieldValue`: decode one scalar starting at `off` and advance the
cursor by exactly the declared byte size (`offset = start + size`). -/
def readFieldValue (buf : ℕ → ℕ) (le : Bool) (off : ℕ) (fd : FieldDef) :
    Option FitVal × ℕ :=
  (decodeScalar buf le off fd.size fd.baseType, off + fd.size)

/-- The field loop of `readDataMessage`: decode each descriptor in order,
writing `result[fieldDefNum] = val` (cons = overwrite-on-lookup). -/
def readFields (buf : ℕ → ℕ) (le : Bool) :
    List FieldDef → ℕ → List (ℕ × Option FitVal) → List (ℕ × Option FitVal) × ℕ
  | [], off, acc => (acc, off)
  | fd :: rest, off, acc =>
    let r := readFieldValue buf le off fd
    readFields buf le rest r.2 ((fd.fieldDefNum, r.1) :: acc)

/-- The function `readDataMessage`: decode all standard fields with the stored
definition, then skip the developer-field bytes. -/
def readDataMessage (buf : ℕ → ℕ) (dfn : MessageDefn) (off : ℕ) :
    RawMessage × ℕ :=
  let r := readFields buf dfn.littleEndian dfn.fields off []
  (⟨dfn.globalMesgNum, r.1⟩, r.2 + (dfn.devFields.map (·.size)).sum)

/-- The field-descriptor loop of a definition record: `n` descriptors of
three bytes each. -/
def readFieldDefs (buf : ℕ → ℕ) : ℕ → ℕ → List FieldDef → List FieldDef × ℕ
  | 0, off, acc => (acc.reverse, off)
  | n + 1, off, acc =>
    readFieldDefs buf n (off + 3) (⟨buf off, buf (off + 1), buf (off + 2)⟩ :: acc)

/-- The developer-field-descriptor loop: `m` descriptors of three bytes. -/
def readDevFieldDefs (buf : ℕ → ℕ) : ℕ → ℕ → List DevFieldDef → List DevFieldDef × ℕ
  | 0, off, acc => (acc.reverse, off)
  | m + 1, off, acc =>
    readDevFieldDefs buf m (off + 3) (⟨buf off, buf (off + 1), buf (off + 2)⟩ :: acc)

/-- The per-local-message-type definition table (`definitions` in the JS). -/
def DefTable := ℕ → Option MessageDefn

/-- Store a definition under a local key, replacing any prior one. -/
def DefTable.set (t : DefTable) (k : ℕ) (d : MessageDefn) : DefTable :=
  fun k2 => if k2 = k then some d else t k2

/-- The record-stream `while` loop of `parseFIT`.  One fuel unit per
iteration; each iteration consumes at least the header byte, so fuel
`dataSize + 1` suffices for a stream bounded by `endOfData`. -/
def parseLoop (buf : ℕ → ℕ) (endOfData : ℕ) :
    ℕ → DefTable → List RawMessage → ℕ → List RawMessage
  | 0, _, msgs, _ => msgs
  | fuel + 1, defs, msgs, off =>
    if off < endOfData then
      let hdr := buf off
      if hdr.testBit 7 then
        -- compressed-timestamp header: key from bits 5-6, low 5 bits unused
        match defs (hdr / 32 % 4) with
        | none => parseLoop buf endOfData fuel defs msgs (off + 1)
        | some dfn =>
          let r := readDataMessage buf dfn (off + 1)
          parseLoop buf endOfData fuel defs (msgs ++ [r.1]) r.2
      else if hdr.testBit 6 then
        -- definition record: reserved byte, arch byte, global number,
        -- field count and descriptors, optionally developer descriptors
        let le := buf (off + 2) = 0
        let gmn := u16 buf le (off + 3)
        let numFields := buf (off + 5)
        let rf := readFieldDefs buf numFields (off + 6) []
        let rd := if hdr.testBit 5 then
            readDevFieldDefs buf (buf rf.2) (rf.2 + 1) []
          else ([], rf.2)
        parseLoop buf endOfData fuel
          (defs.set (hdr % 16) ⟨gmn, rf.1, rd.1, le⟩) msgs rd.2
      else
        -- data record: look up the stored definition; on a miss the
        -- stream is considered corrupt and scanning stops (`break`)
        match defs (hdr % 16) with
        | none => msgs
        | some dfn =>
          let r := readDataMessage buf dfn (off + 1)
          parseLoop buf endOfData fuel defs (msgs ++ [r.1]) r.2
    else msgs

/-- The function `parseFIT`: validate the `.FIT` header tag, then scan the record
stream from `headerSize` to `headerSize + dataSize`. -/
def parseFIT (buf : ℕ → ℕ) : Except String (List RawMessage) :=
  let headerSize := buf 0
  let dataSize := u32 buf true 4
  if buf 8 = 46 ∧ buf 9 = 70 ∧ buf 10 = 73 ∧ buf 11 = 84 then
    .ok (parseLoop buf (headerSize + dataSize) (dataSize + 1)
      (fun _ => none) [] headerSize)
  else
    .error "Not a valid FIT file"

/-! ## The dive extractor (`extractDiveFromBuffer` after `parseFIT`) -/

/-- JavaScript truthiness of a decoded field value: `undefined`/`null`,
`0`, `NaN` and the empty string are falsy.  For a float kept as raw
bits, the falsy patterns are the two zeros and NaN. -/
def jsTruthy : Option FitVal → Bool
  | none => false
  | some (.num v) => v ≠ 0
  | some (.str s) => s ≠ ""
  | some (.f32bits b) =>
    ¬(b % 2 ^ 31 = 0 ∨ (b / 2 ^ 23 % 2 ^ 8 = 255 ∧ b % 2 ^ 23 ≠ 0))
  | some (.f64bits b) =>
    ¬(b % 2 ^ 63 = 0 ∨ (b / 2 ^ 52 % 2 ^ 11 = 2047 ∧ b % 2 ^ 52 ≠ 0))

/-- JavaScript `a || b`. -/
def jsOr (a b : Option FitVal) : Option FitVal :=
  if jsTruthy a then a else b

/-- The integer carried by a decoded value, when it is numeric. -/
def intVal : Option FitVal → Option ℤ
  | some (.num v) => some v
  | _ => none

/-- The scaling `v / 1000` applied to a present numeric value; a present
non-numeric value would give `NaN` in JS, modelled as `none`. -/
def scaled1000 : Option FitVal → Option ℚ
  | some (.num v) => some ((v : ℚ) / 1000)
  | _ => none

/-- The function `garminTimestampToDate`: falsy (0/absent) timestamps give `null`,
a numeric timestamp shifts by the Garmin epoch offset `631065600`
(a non-numeric value would give an invalid date, modelled as `none`).
The result is kept in seconds since the 1970 epoch. -/
def garminTimestampToDate (v : Option FitVal) : Option ℤ :=
  if jsTruthy v then
    match v with
    | some (.num t) => some (t + 631065600)
    | _ => none
  else none

/-- One time-stamped dive observation.  `elapsed` is `none` when either
timestamp is missing (JS would carry `NaN`). -/
structure DiveSample where
  elapsed : Option ℤ
  depth : Option ℚ
  ascentRate : Option ℚ
  temperature : Option FitVal
  ndl : Option FitVal
  cns : Option FitVal
deriving DecidableEq, Repr

/-- Build the sample for one record message (`records.map` body). -/
def mkSample (firstTs : Option FitVal) (r : RawMessage) : DiveSample :=
  { elapsed :=
      match intVal (r.fieldVal 253), intVal firstTs with
      | some t, some t0 => some (t - t0)
      | _, _ => none
    depth := scaled1000 (r.fieldVal 92)
    ascentRate := scaled1000 (r.fieldVal 127)
    temperature := r.fieldVal 13
    ndl := r.fieldVal 96
    cns := r.fieldVal 93 }

/-- The time delta `samples[i].elapsed - samples[i-1].elapsed`; `none`
models the `NaN` JS produces from a missing timestamp (every comparison
against `NaN` is false, hence the `none` branch never fills a rate). -/
def deltaT (prev cur : DiveSample) : Option ℤ :=
  match prev.elapsed, cur.elapsed with
  | some a, some b => some (b - a)
  | _, _ => none

/-- The body of the ascent-rate backfill loop at one index: when the
rate is absent, both depths are present and the time delta is strictly
positive, set `ascentRate = (prevDepth - curDepth) / dt`. -/
def backfillStep (prev cur : DiveSample) : DiveSample :=
  match cur.ascentRate, prev.depth, cur.depth with
  | none, some dp, some dc =>
    match deltaT prev cur with
    | some dt =>
      if 0 < dt then { cur with ascentRate := some ((dp - dc) / (dt : ℚ)) }
      else cur
    | none => cur
  | _, _, _ => cur

/-- The backfill loop over the tail, threading the (already updated)
previous sample exactly as the in-place JS loop does. -/
def backfillAux (prev : DiveSample) : List DiveSample → List DiveSample
  | [] => []
  | c :: rest =>
    let c2 := backfillStep prev c
    c2 :: backfillAux c2 rest

/-- The ascent-rate backfill pass (`for i = 1; i < samples.length`). -/
def backfill : List DiveSample → List DiveSample
  | [] => []
  | c :: rest => c :: backfillAux c rest

/-- The spread `Math.max(...)` over a list (the samples list is never empty here). -/
def jsMathMax : List ℚ → Option ℚ
  | [] => none
  | h :: t => some (t.foldl max h)

/-- The spread `Math.min(...)` over the present temperatures; `none` when empty. -/
def listMin : List ℤ → Option ℤ
  | [] => none
  | h :: t => some (t.foldl min h)

/-- The spread `Math.max(...)` over the present temperatures; `none` when empty. -/
def listMax : List ℤ → Option ℤ
  | [] => none
  | h :: t => some (t.foldl max h)

/-- The access `sessions[0]` (or the empty object) followed by a field read: the field of the
first message of the partition, or `none` when the partition is empty. -/
def msgField (l : List RawMessage) (k : ℕ) : Option FitVal :=
  match l with
  | [] => none
  | m :: _ => m.fieldVal k

/-- The only extraction-stage error: zero record messages. -/
inductive ExtractError where
  | noRecords
deriving DecidableEq, Repr

/-- The extractor's single output value. `totalTime` and `maxDepth` are
optional only to carry the `NaN` JS would produce from a non-numeric
session/summary field; on numeric inputs they are always present. -/
structure Dive where
  startDate : Option ℤ
  totalTime : Option ℚ
  maxDepth : Option ℚ
  avgDepth : Option ℚ
  minTemp : Option ℤ
  maxTemp : Option ℤ
  samples : List DiveSample
deriving DecidableEq, Repr

instance : Inhabited Dive := ⟨⟨none, none, none, none, none, none, []⟩⟩

/-- The function `extractDiveFromBuffer` after `parseFIT`: partition the messages,
build and backfill the sample series, then aggregate session/summary
statistics with the truthiness-guarded fallback ladder of the JS. -/
def extractDive (messages : List RawMessage) : Except ExtractError Dive :=
  let records := messages.filter (fun m => decide (m.mesgNum = 20))
  let sessions := messages.filter (fun m => decide (m.mesgNum = 18))
  let diveSummaries := messages.filter (fun m => decide (m.mesgNum = 268))
  match records with
  | [] => .error .noRecords
  | r0 :: rest =>
    let firstTs := r0.fieldVal 253
    let samples := backfill ((r0 :: rest).map (mkSample firstTs))
    let startDate := garminTimestampToDate (jsOr (msgField sessions 2) firstTs)
    let totalTime :=
      if jsTruthy (msgField sessions 7) then scaled1000 (msgField sessions 7)
      else (samples.getLast?.bind DiveSample.elapsed).map (fun z => (z : ℚ))
    let maxDepth :=
      if jsTruthy (msgField diveSummaries 3) then scaled1000 (msgField diveSummaries 3)
      else jsMathMax (samples.map (fun s => s.depth.getD 0))
    let avgDepth :=
      if jsTruthy (msgField diveSummaries 2) then scaled1000 (msgField diveSummaries 2)
      else none
    let temps := samples.filterMap (fun s => intVal s.temperature)
    .ok { startDate, totalTime, maxDepth, avgDepth,
          minTemp := listMin temps, maxTemp := listMax temps, samples }

/-! ## Helper lemmas about the backfill pass -/

theorem backfillStep_eq_of (p1 p2 c : DiveSample)
    (hd : p1.depth = p2.depth) (he : p1.elapsed = p2.elapsed) :
    backfillStep p1 c = backfillStep p2 c := by
  simp only [backfillStep, deltaT, hd, he]

theorem backfillStep_cases (p c : DiveSample) :
    backfillStep p c = c ∨
      ∃ q, backfillStep p c = { c with ascentRate := some q } := by
  unfold backfillStep
  split
  · split
    · split
      · exact Or.inr ⟨_, rfl⟩
      · exact Or.inl rfl
    · exact Or.inl rfl
  · exact Or.inl rfl

theorem backfillStep_elapsed (p c : DiveSample) :
    (backfillStep p c).elapsed = c.elapsed := by
  rcases backfillStep_cases p c with h | ⟨q, h⟩ <;> rw [h]

theorem backfillStep_depth (p c : DiveSample) :
    (backfillStep p c).depth = c.depth := by
  rcases backfillStep_cases p c with h | ⟨q, h⟩ <;> rw [h]

theorem backfillStep_temperature (p c : DiveSample) :
    (backfillStep p c).temperature = c.temperature := by
  rcases backfillStep_cases p c with h | ⟨q, h⟩ <;> rw [h]

theorem backfillStep_ndl (p c : DiveSample) :
    (backfillStep p c).ndl = c.ndl := by
  rcases backfillStep_cases p c with h | ⟨q, h⟩ <;> rw [h]

theorem backfillStep_cns (p c : DiveSample) :
    (backfillStep p c).cns = c.cns := by
  rcases backfillStep_cases p c with h | ⟨q, h⟩ <;> rw [h]

theorem backfillStep_of_rate_some (p c : DiveSample) (r : ℚ)
    (h : c.ascentRate = some r) : backfillStep p c = c := by
  unfold backfillStep
  rw [h]

theorem backfillStep_set (p c : DiveSample) (dp dc : ℚ) (ep ec : ℤ)
    (h1 : c.ascentRate = none) (h2 : p.depth = some dp) (h3 : c.depth = some dc)
    (h4 : p.elapsed = some ep) (h5 : c.elapsed = some ec) (h6 : 0 < ec - ep) :
    backfillStep p c = { c with ascentRate := some ((dp - dc) / ((ec - ep : ℤ) : ℚ)) } := by
  unfold backfillStep deltaT
  rw [h1, h2, h3, h4, h5]
  simp [h6]

theorem backfillStep_id_of_not (p c : DiveSample)
    (h : ¬(c.ascentRate = none ∧ p.depth.isSome ∧ c.depth.isSome ∧
        ∃ ep ec, p.elapsed = some ep ∧ c.elapsed = some ec ∧ 0 < ec - ep)) :
    backfillStep p c = c := by
  unfold backfillStep
  rcases hra : c.ascentRate with _ | r <;>
    rcases hpd : p.depth with _ | dp <;>
      rcases hcd : c.depth with _ | dc <;>
        try rfl
  rcases hpe : p.elapsed with _ | ep <;>
    rcases hce : c.elapsed with _ | ec <;>
      simp [deltaT, hpe, hce]
  intro hlt
  exact absurd ⟨hra, by simp [hpd], by simp [hcd], ep, ec, hpe, hce, by omega⟩ h

theorem backfillAux_congr (l : List DiveSample) (p1 p2 : DiveSample)
    (hd : p1.depth = p2.depth) (he : p1.elapsed = p2.elapsed) :
    backfillAux p1 l = backfillAux p2 l := by
  cases l with
  | nil => rfl
  | cons c rest =>
    simp only [backfillAux]
    rw [backfillStep_eq_of p1 p2 c hd he]

theorem backfillAux_cons (p c : DiveSample) (rest : List DiveSample) :
    backfillAux p (c :: rest) = backfillStep p c :: backfillAux c rest := by
  simp only [backfillAux]
  exact congrArg _ (backfillAux_congr rest (backfillStep p c) c
    (backfillStep_depth p c) (backfillStep_elapsed p c))

theorem backfillAux_length (l : List DiveSample) :
    ∀ p, (backfillAux p l).length = l.length := by
  induction l with
  | nil => intro p; rfl
  | cons c rest ih =>
    intro p
    rw [backfillAux_cons]
    simp [ih c]

theorem backfill_length (l : List DiveSample) :
    (backfill l).length = l.length := by
  cases l with
  | nil => rfl
  | cons c rest => simp [backfill, backfillAux_length rest c]

theorem backfillAux_get_zero (p : DiveSample) (l : List DiveSample) :
    (backfillAux p l)[0]? = (l[0]?).map (backfillStep p) := by
  cases l with
  | nil => rfl
  | cons c rest => rw [backfillAux_cons]; simp

theorem backfillAux_get_succ (l : List DiveSample) :
    ∀ (p : DiveSample) (i : ℕ),
      (backfillAux p l)[i + 1]? =
        (l[i]?).bind (fun a => (l[i + 1]?).map (backfillStep a)) := by
  induction l with
  | nil => intro p i; simp [backfillAux]
  | cons c rest ih =>
    intro p i
    rw [backfillAux_cons]
    cases i with
    | zero =>
      simp only [List.getElem?_cons_succ, List.getElem?_cons_zero,
        Option.some_bind]
      exact backfillAux_get_zero c rest
    | succ j =>
      simp only [List.getElem?_cons_succ]
      exact ih c j

theorem backfill_get_zero (l : List DiveSample) :
    (backfill l)[0]? = l[0]? := by
  cases l with
  | nil => rfl
  | cons c rest => simp [backfill]

theorem backfill_get_succ (l : List DiveSample) (i : ℕ) :
    (backfill l)[i + 1]? =
      (l[i]?).bind (fun a => (l[i + 1]?).map (backfillStep a)) := by
  cases l with
  | nil => simp [backfill]
  | cons c rest =>
    simp only [backfill, List.getElem?_cons_succ]
    cases i with
    | zero =>
      simp only [List.getElem?_cons_zero, List.getElem?_cons_succ,
        Option.some_bind]
      exact backfillAux_get_zero c rest
    | succ j =>
      simp only [List.getElem?_cons_succ]
      exact backfillAux_get_succ rest c j

theorem backfill_map_field {α : Type} (f : DiveSample → α)
    (hf : ∀ p c, f (backfillStep p c) = f c) (l : List DiveSample) (i : ℕ) :
    ((backfill l)[i]?).map f = (l[i]?).map f := by
  cases i with
  | zero => rw [backfill_get_zero]
  | succ j =>
    rw [backfill_get_succ]
    cases hj : l[j]? with
    | none =>
      have : l[j + 1]? = none := by
        rw [List.getElem?_eq_none_iff] at hj ⊢
        omega
      simp [this]
    | some a =>
      cases hj1 : l[j + 1]? with
      | none => simp
      | some b => simp [hf]

theorem backfill_rate_some (l : List DiveSample) (i : ℕ) (s : DiveSample)
    (r : ℚ) (hs : l[i]? = some s) (hr : s.ascentRate = some r) :
    (backfill l)[i]? = some s := by
  cases i with
  | zero => rw [backfill_get_zero, hs]
  | succ j =>
    rw [backfill_get_succ]
    have hlen : j + 1 < l.length := (List.getElem?_eq_some.mp hs).1
    have ha : l[j]? = some (l.get ⟨j, by omega⟩) :=
      List.getElem?_eq_getElem (by omega)
    simp [ha, hs, backfillStep_of_rate_some _ s r hr]

theorem backfillAux_id_of_rates (l : List DiveSample)
    (h : ∀ s ∈ l, s.ascentRate ≠ none) : ∀ p, backfillAux p l = l := by
  induction l with
  | nil => intro p; rfl
  | cons c rest ih =>
    intro p
    rw [backfillAux_cons]
    obtain ⟨r, hr⟩ := Option.ne_none_iff_exists'.mp (h c (by simp))
    rw [backfillStep_of_rate_some p c r hr]
    rw [ih (fun s hs => h s (by simp [hs]))]

theorem backfill_id_of_rates (l : List DiveSample)
    (h : ∀ s ∈ l, s.ascentRate ≠ none) : backfill l = l := by
  cases l with
  | nil => rfl
  | cons c rest =>
    show c :: backfillAux c rest = c :: rest
    rw [backfillAux_id_of_rates rest (fun s hs => h s (by simp [hs])) c]

/-! ## Claim C1: ascent-rate backfill values -/

/-- C1: for every sample list, at each index `i+1` whose ascent rate is
absent while both neighbouring depths are present and the elapsed delta
is strictly positive, backfill sets
`ascentRate = (prevDepth - curDepth) / delta`; at every index where the
condition fails the sample is returned unchanged; and when every sample
already carries a rate, backfill is the identity. -/
theorem claim1_backfill_rate (l : List DiveSample) (i : ℕ) (h : i + 1 < l.length) :
    (∀ dp dc ep ec,
      (l.get ⟨i, by omega⟩).depth = some dp →
      (l.get ⟨i + 1, h⟩).depth = some dc →
      (l.get ⟨i, by omega⟩).elapsed = some ep →
      (l.get ⟨i + 1, h⟩).elapsed = some ec →
      (l.get ⟨i + 1, h⟩).ascentRate = none →
      0 < ec - ep →
      (backfill l)[i + 1]? =
        some { l.get ⟨i + 1, h⟩ with
               ascentRate := some ((dp - dc) / ((ec - ep : ℤ) : ℚ)) }) ∧
    (¬((l.get ⟨i + 1, h⟩).ascentRate = none ∧
        (l.get ⟨i, by omega⟩).depth.isSome ∧ (l.get ⟨i + 1, h⟩).depth.isSome ∧
        ∃ ep ec, (l.get ⟨i, by omega⟩).elapsed = some ep ∧
          (l.get ⟨i + 1, h⟩).elapsed = some ec ∧ 0 < ec - ep) →
      (backfill l)[i + 1]? = some (l.get ⟨i + 1, h⟩)) ∧
    ((∀ s ∈ l, s.ascentRate ≠ none) → backfill l = l) := by
  have hgi : l[i]? = some (l.get ⟨i, by omega⟩) :=
    List.getElem?_eq_getElem (by omega)
  have hgi1 : l[i + 1]? = some (l.get ⟨i + 1, h⟩) :=
    List.getElem?_eq_getElem h
  refine ⟨?_, ?_, backfill_id_of_rates l⟩
  · intro dp dc ep ec h1 h2 h3 h4 h5 h6
    rw [backfill_get_succ, hgi, hgi1]
    exact congrArg some (backfillStep_set _ _ dp dc ep ec h5 h1 h2 h3 h4 h6)
  · intro hnot
    rw [backfill_get_succ, hgi, hgi1]
    exact congrArg some (backfillStep_id_of_not _ _ hnot)

/-- Concrete instance of C1: two samples at depths 10 and 8 and elapsed
times 0 and 2 backfill the second rate to `(10 - 8) / 2`. -/
def samplesW1 : List DiveSample :=
  [⟨some 0, some 10, none, none, none, none⟩,
   ⟨some 2, some 8, none, none, none, none⟩]

theorem claim1_backfill_rate_witness :
    (backfill samplesW1)[1]? =
      some { samplesW1.get ⟨1, by decide⟩ with
             ascentRate := some ((10 - 8) / (((2 : ℤ) - 0 : ℤ) : ℚ)) } :=
  (claim1_backfill_rate samplesW1 0 (by decide)).1 10 8 0 2 rfl rfl rfl rfl rfl
    (by decide)

/-! ## Claim C10: backfill frame condition -/

/-- C10: the backfill pass changes only the `ascentRate` field — it
preserves the list length and order, every sample's `elapsed`, `depth`,
`temperature`, `ndl` and `cns`, sample 0 entirely, and every ascent rate
that was already present. -/
theorem claim10_backfill_frame (l : List DiveSample) (i : ℕ) :
    (backfill l).length = l.length ∧
    (backfill l)[0]? = l[0]? ∧
    ((backfill l)[i]?).map DiveSample.elapsed = (l[i]?).map DiveSample.elapsed ∧
    ((backfill l)[i]?).map DiveSample.depth = (l[i]?).map DiveSample.depth ∧
    ((backfill l)[i]?).map DiveSample.temperature =
      (l[i]?).map DiveSample.temperature ∧
    ((backfill l)[i]?).map DiveSample.ndl = (l[i]?).map DiveSample.ndl ∧
    ((backfill l)[i]?).map DiveSample.cns = (l[i]?).map DiveSample.cns ∧
    (∀ s r, l[i]? = some s → s.ascentRate = some r →
      (backfill l)[i]? = some s) :=
  ⟨backfill_length l, backfill_get_zero l,
   backfill_map_field DiveSample.elapsed backfillStep_elapsed l i,
   backfill_map_field DiveSample.depth backfillStep_depth l i,
   backfill_map_field DiveSample.temperature backfillStep_temperature l i,
   backfill_map_field DiveSample.ndl backfillStep_ndl l i,
   backfill_map_field DiveSample.cns backfillStep_cns l i,
   fun s r hs hr => backfill_rate_some l i s r hs hr⟩

/-- Concrete instance of C10: a present ascent rate at index 1 is kept
untouched by the backfill pass. -/
def samplesW10 : List DiveSample :=
  [⟨some 0, some 10, none, none, none, none⟩,
   ⟨some 2, some 8, some 3, none, none, none⟩]

theorem claim10_backfill_frame_witness :
    (backfill samplesW10)[1]? = some ⟨some 2, some 8, some 3, none, none, none⟩ :=
  (claim10_backfill_frame samplesW10 1).2.2.2.2.2.2.2
    ⟨some 2, some 8, some 3, none, none, none⟩ 3 rfl rfl

/-! ## Claim C2: sentinel and unknown-base-type decoding -/

/-- C2: field decoding selects the representation by the base type's low
5 bits; a raw value equal to the type's sentinel (0xFF, 0x7F, 0x7FFF,
0xFFFF, 0x7FFFFFFF, 0xFFFFFFFF according to the type) decodes to
"no value" regardless of the declared byte size; an unrecognized base
type decodes to "no value"; and in all cases the cursor advances by
exactly the declared byte size. -/
theorem claim2_sentinel_decode (buf : ℕ → ℕ) (le : Bool) (off : ℕ) (fd : FieldDef) :
    (readFieldValue buf le off fd).2 = off + fd.size ∧
    readFieldValue buf le off fd =
      readFieldValue buf le off ⟨fd.fieldDefNum, fd.size, fd.baseType % 32⟩ ∧
    ((fd.baseType % 32 = 0 ∨ fd.baseType % 32 = 2 ∨ fd.baseType % 32 = 10 ∨
        fd.baseType % 32 = 13) → buf off = 255 →
      (readFieldValue buf le off fd).1 = none) ∧
    (fd.baseType % 32 = 1 → buf off = 127 →
      (readFieldValue buf le off fd).1 = none) ∧
    (fd.baseType % 32 = 3 → u16 buf le off = 32767 →
      (readFieldValue buf le off fd).1 = none) ∧
    ((fd.baseType % 32 = 4 ∨ fd.baseType % 32 = 11) → u16 buf le off = 65535 →
      (readFieldValue buf le off fd).1 = none) ∧
    (fd.baseType % 32 = 5 → u32 buf le off = 2147483647 →
      (readFieldValue buf le off fd).1 = none) ∧
    ((fd.baseType % 32 = 6 ∨ fd.baseType % 32 = 12) → u32 buf le off = 4294967295 →
      (readFieldValue buf le off fd).1 = none) ∧
    (14 ≤ fd.baseType % 32 → (readFieldValue buf le off fd).1 = none) := by
  refine ⟨rfl, ?_, ?_, ?_, ?_, ?_, ?_, ?_, ?_⟩
  · have hmm : fd.baseType % 32 % 32 = fd.baseType % 32 :=
      Nat.mod_mod_of_dvd _ dvd_rfl
    unfold readFieldValue decodeScalar
    rw [hmm]
  · rintro (hbt | hbt | hbt | hbt) hraw <;>
      simp [readFieldValue, decodeScalar, hbt, hraw]
  · intro hbt hraw
    simp [readFieldValue, decodeScalar, hbt, hraw, toSigned]
  · intro hbt hraw
    simp [readFieldValue, decodeScalar, hbt, hraw, toSigned]
  · rintro (hbt | hbt) hraw <;>
      simp [readFieldValue, decodeScalar, hbt, hraw]
  · intro hbt hraw
    simp [readFieldValue, decodeScalar, hbt, hraw, toSigned]
  · rintro (hbt | hbt) hraw <;>
      simp [readFieldValue, decodeScalar, hbt, hraw]
  · intro hbt
    have h32 : fd.baseType % 32 < 32 := Nat.mod_lt _ (by norm_num)
    unfold readFieldValue decodeScalar
    generalize fd.baseType % 32 = b at hbt h32 ⊢
    interval_cases b <;> rfl

/-- Concrete instance of C2: a 3-byte-wide `enum` field whose raw byte is
0xFF decodes to "no value" and still advances the cursor by 3. -/
def bufW2 : ℕ → ℕ := fun _ => 255

theorem claim2_sentinel_decode_witness :
    (readFieldValue bufW2 true 5 ⟨0, 3, 0⟩).1 = none ∧
    (readFieldValue bufW2 true 5 ⟨0, 3, 0⟩).2 = 8 :=
  ⟨(claim2_sentinel_decode bufW2 true 5 ⟨0, 3, 0⟩).2.2.1 (Or.inl rfl) rfl,
   (claim2_sentinel_decode bufW2 true 5 ⟨0, 3, 0⟩).1⟩

/-! ## Claim C3: NoRecordsError boundary -/

/-- A byte buffer from an explicit list (cells past the end read 0). -/
def bufOfList (l : List ℕ) : ℕ → ℕ := fun i => l.getD i 0

/-- A buffer with a valid header and one session (global 18) message
carrying `start_time = 1000`, and no record messages. -/
def bufW3 : ℕ → ℕ := bufOfList
  [12, 16, 0, 0, 14, 0, 0, 0, 46, 70, 73, 84,
   64, 0, 0, 18, 0, 1, 2, 4, 134,
   0, 232, 3, 0, 0]

/-- The message sequence `bufW3` decodes to: one session message. -/
def msgsW3 : List RawMessage := [⟨18, [(2, some (.num 1000))]⟩]

/-- C3: extraction fails exactly when the decoded sequence has no
message of global type 20, the failure is `NoRecordsError`, and a
buffer with a valid header and session messages but no records decodes
without error and fails only at the extraction stage. -/
theorem claim3_norecords (msgs : List RawMessage) :
    ((∃ e, extractDive msgs = .error e) ↔
      msgs.filter (fun m => decide (m.mesgNum = 20)) = []) ∧
    (msgs.filter (fun m => decide (m.mesgNum = 20)) = [] →
      extractDive msgs = .error .noRecords) ∧
    (parseFIT bufW3 = .ok msgsW3 ∧ msgsW3 ≠ [] ∧
      extractDive msgsW3 = .error .noRecords) := by
  have key1 : msgs.filter (fun m => decide (m.mesgNum = 20)) = [] →
      extractDive msgs = .error .noRecords := by
    intro hf
    unfold extractDive
    rw [hf]
  have key2 : ∀ r rs, msgs.filter (fun m => decide (m.mesgNum = 20)) = r :: rs →
      ∃ d, extractDive msgs = .ok d := by
    intro r rs hf
    unfold extractDive
    rw [hf]
    exact ⟨_, rfl⟩
  refine ⟨⟨?_, fun hf => ⟨.noRecords, key1 hf⟩⟩, key1, rfl, by decide, rfl⟩
  rintro ⟨e, he⟩
  cases hf : msgs.filter (fun m => decide (m.mesgNum = 20)) with
  | nil => rfl
  | cons r rs =>
    obtain ⟨d, hd⟩ := key2 r rs hf
    rw [hd] at he
    cases he

/-- Concrete instance of C3: the session-only sequence has an empty
record partition, so extraction errors with `NoRecordsError`. -/
theorem claim3_norecords_witness : extractDive msgsW3 = .error .noRecords :=
  (claim3_norecords msgsW3).2.1 rfl

/-! ## Claim C4: header tag validation -/

/-- C4: the decoder errors exactly when bytes 8-11 are not the ASCII
tag ".FIT"; on a mismatch it fails with the format error before any
record is scanned (no messages are produced), and on a match it scans
the record stream with the cursor starting at the declared header
length. -/
theorem claim4_header_tag (buf : ℕ → ℕ) (_hb : ∀ i, buf i < 256) :
    ((∃ e, parseFIT buf = .error e) ↔
      ¬(buf 8 = 46 ∧ buf 9 = 70 ∧ buf 10 = 73 ∧ buf 11 = 84)) ∧
    (¬(buf 8 = 46 ∧ buf 9 = 70 ∧ buf 10 = 73 ∧ buf 11 = 84) →
      parseFIT buf = .error "Not a valid FIT file") ∧
    ((buf 8 = 46 ∧ buf 9 = 70 ∧ buf 10 = 73 ∧ buf 11 = 84) →
      parseFIT buf = .ok (parseLoop buf (buf 0 + u32 buf true 4)
        (u32 buf true 4 + 1) (fun _ => none) [] (buf 0))) := by
  refine ⟨?_, fun hn => by simp [parseFIT, hn],
    fun ht => by simp [parseFIT, ht]⟩
  by_cases htag : buf 8 = 46 ∧ buf 9 = 70 ∧ buf 10 = 73 ∧ buf 11 = 84 <;>
    simp [parseFIT, htag]

/-- Concrete instance of C4: an all-zero buffer (tag "XFIT" or anything
other than ".FIT") fails with the format error. -/
def bufW4 : ℕ → ℕ := bufOfList
  [14, 16, 0, 0, 0, 0, 0, 0, 88, 70, 73, 84]

theorem bufOfList_lt (l : List ℕ) (hl : ∀ x ∈ l, x < 256) :
    ∀ i, bufOfList l i < 256 := by
  induction l with
  | nil => intro i; simp [bufOfList]
  | cons x xs ih =>
    intro i
    cases i with
    | zero => simpa [bufOfList] using hl x (by simp)
    | succ j =>
      simpa [bufOfList] using ih (fun y hy => hl y (by simp [hy])) j

theorem claim4_header_tag_witness :
    parseFIT bufW4 = .error "Not a valid FIT file" :=
  (claim4_header_tag bufW4 (bufOfList_lt _ (by decide))).2.1 (by decide)

/-! ## Claim C5: degradation on missing definition for a data record -/

/-- A buffer whose stream holds one decodable session data message,
then a data record header for local type 1 with no stored definition,
followed by further bytes that would decode as another message. -/
def bufW5 : ℕ → ℕ := bufOfList
  [12, 16, 0, 0, 20, 0, 0, 0, 46, 70, 73, 84,
   64, 0, 0, 18, 0, 1, 2, 4, 134,
   0, 232, 3, 0, 0,
   1,
   0, 170, 170, 170, 170]

/-- The messages decoded from `bufW5` before the offending record. -/
def msgsW5 : List RawMessage := [⟨18, [(2, some (.num 1000))]⟩]

/-- C5: when the scan reaches a data record header (bits 6 and 7 clear)
whose local message-type key has no stored definition, the loop stops
and returns exactly the messages decoded so far; concretely, a stream
with one decoded message followed by such a record (and by further
decodable bytes) yields exactly that one message. -/
theorem claim5_missing_defn_stops (buf : ℕ → ℕ) (endOfData fuel : ℕ)
    (defs : DefTable) (msgs : List RawMessage) (off : ℕ)
    (hoff : off < endOfData)
    (h7 : (buf off).testBit 7 = false)
    (h6 : (buf off).testBit 6 = false)
    (hdef : defs (buf off % 16) = none) :
    parseLoop buf endOfData (fuel + 1) defs msgs off = msgs ∧
    parseFIT bufW5 = .ok msgsW5 := by
  refine ⟨?_, rfl⟩
  unfold parseLoop
  simp [hoff, h7, h6, hdef]

/-- Concrete instance of C5 at the loop level: at offset 26 of `bufW5`
(the data header `0x01` for undefined local type 1) the scan stops and
returns the accumulated message list. -/
theorem claim5_missing_defn_stops_witness :
    parseLoop bufW5 32 6 (DefTable.set (fun _ => none) 0
        ⟨18, [⟨2, 4, 134⟩], [], true⟩) msgsW5 26 = msgsW5 :=
  (claim5_missing_defn_stops bufW5 32 5 _ msgsW5 26 (by decide) (by decide)
    (by decide) rfl).1

/-! ## Buffer-agreement congruence: the scan only reads the tape at or
after the current offset.  These lemmas support the claim that the low
5 bits of a compressed-timestamp header are ignored for value
decoding. -/

section BufCongr

variable (b1 b2 : ℕ → ℕ) (lo : ℕ) (hag : ∀ j, lo ≤ j → b1 j = b2 j)

include hag

theorem u16_congr (le : Bool) (off : ℕ) (h : lo ≤ off) :
    u16 b1 le off = u16 b2 le off := by
  unfold u16
  rw [hag off h, hag (off + 1) (by omega)]

theorem u32_congr (le : Bool) (off : ℕ) (h : lo ≤ off) :
    u32 b1 le off = u32 b2 le off := by
  unfold u32
  rw [hag off h, hag (off + 1) (by omega), hag (off + 2) (by omega),
    hag (off + 3) (by omega)]

theorem u64_congr (le : Bool) (off : ℕ) (h : lo ≤ off) :
    u64 b1 le off = u64 b2 le off := by
  unfold u64
  rw [u32_congr b1 b2 lo hag true off h,
    u32_congr b1 b2 lo hag true (off + 4) (by omega),
    u32_congr b1 b2 lo hag false off h,
    u32_congr b1 b2 lo hag false (off + 4) (by omega)]

theorem readChars_congr : ∀ (n off : ℕ), lo ≤ off →
    readChars b1 off n = readChars b2 off n := by
  intro n
  induction n with
  | zero => intro off h; rfl
  | succ m ih =>
    intro off h
    unfold readChars
    rw [hag off h]
    by_cases hc : b2 off = 0
    · simp [hc]
    · simp [hc, ih (off + 1) (by omega)]

theorem decodeScalar_congr (le : Bool) (off size baseType : ℕ) (h : lo ≤ off) :
    decodeScalar b1 le off size baseType = decodeScalar b2 le off size baseType := by
  have hb := hag off h
  have h16 := u16_congr b1 b2 lo hag le off h
  have h32 := u32_congr b1 b2 lo hag le off h
  have h64 := u64_congr b1 b2 lo hag le off h
  have hch := readChars_congr b1 b2 lo hag size off h
  have hlt : baseType % 32 < 32 := Nat.mod_lt _ (by norm_num)
  unfold decodeScalar
  generalize baseType % 32 = bt at hlt ⊢
  interval_cases bt <;> simp [hb, h16, h32, h64, hch]

theorem readFields_congr (le : Bool) :
    ∀ (fds : List FieldDef) (off : ℕ) (acc : List (ℕ × Option FitVal)),
      lo ≤ off → readFields b1 le fds off acc = readFields b2 le fds off acc := by
  intro fds
  induction fds with
  | nil => intro off acc h; rfl
  | cons fd rest ih =>
    intro off acc h
    show readFields b1 le rest (off + fd.size)
        ((fd.fieldDefNum, decodeScalar b1 le off fd.size fd.baseType) :: acc) = _
    rw [decodeScalar_congr b1 b2 lo hag le off fd.size fd.baseType h]
    exact ih (off + fd.size) _ (by omega)

theorem readDataMessage_congr (dfn : MessageDefn) (off : ℕ) (h : lo ≤ off) :
    readDataMessage b1 dfn off = readDataMessage b2 dfn off := by
  unfold readDataMessage
  rw [readFields_congr b1 b2 lo hag dfn.littleEndian dfn.fields off [] h]

theorem readFieldDefs_congr : ∀ (n off : ℕ) (acc : List FieldDef),
    lo ≤ off → readFieldDefs b1 n off acc = readFieldDefs b2 n off acc := by
  intro n
  induction n with
  | zero => intro off acc h; rfl
  | succ m ih =>
    intro off acc h
    unfold readFieldDefs
    rw [hag off h, hag (off + 1) (by omega), hag (off + 2) (by omega)]
    exact ih (off + 3) _ (by omega)

theorem readDevFieldDefs_congr : ∀ (m off : ℕ) (acc : List DevFieldDef),
    lo ≤ off → readDevFieldDefs b1 m off acc = readDevFieldDefs b2 m off acc := by
  intro m
  induction m with
  | zero => intro off acc h; rfl
  | succ k ih =>
    intro off acc h
    unfold readDevFieldDefs
    rw [hag off h, hag (off + 1) (by omega), hag (off + 2) (by omega)]
    exact ih (off + 3) _ (by omega)

end BufCongr

theorem readFields_snd (buf : ℕ → ℕ) (le : Bool) :
    ∀ (fds : List FieldDef) (off : ℕ) (acc : List (ℕ × Option FitVal)),
      (readFields buf le fds off acc).2 = off + (fds.map (·.size)).sum := by
  intro fds
  induction fds with
  | nil => intro off acc; simp [readFields]
  | cons fd rest ih =>
    intro off acc
    show (readFields buf le rest (off + fd.size) _).2 = _
    rw [ih (off + fd.size)]
    simp
    omega

theorem readDataMessage_snd_ge (buf : ℕ → ℕ) (dfn : MessageDefn) (off : ℕ) :
    off ≤ (readDataMessage buf dfn off).2 := by
  unfold readDataMessage
  simp only
  rw [readFields_snd]
  omega

theorem readFieldDefs_snd (buf : ℕ → ℕ) :
    ∀ (n off : ℕ) (acc : List FieldDef),
      (readFieldDefs buf n off acc).2 = off + 3 * n := by
  intro n
  induction n with
  | zero => intro off acc; rfl
  | succ m ih =>
    intro off acc
    unfold readFieldDefs
    rw [ih (off + 3)]
    omega

theorem readDevFieldDefs_snd (buf : ℕ → ℕ) :
    ∀ (m off : ℕ) (acc : List DevFieldDef),
      (readDevFieldDefs buf m off acc).2 = off + 3 * m := by
  intro m
  induction m with
  | zero => intro off acc; rfl
  | succ k ih =>
    intro off acc
    unfold readDevFieldDefs
    rw [ih (off + 3)]
    omega

theorem parseLoop_congr (b1 b2 : ℕ → ℕ) (lo : ℕ)
    (hag : ∀ j, lo ≤ j → b1 j = b2 j) (endOfData : ℕ) :
    ∀ (fuel : ℕ) (defs : DefTable) (msgs : List RawMessage) (off : ℕ),
      lo ≤ off →
      parseLoop b1 endOfData fuel defs msgs off =
        parseLoop b2 endOfData fuel defs msgs off := by
  intro fuel
  induction fuel with
  | zero => intro defs msgs off h; rfl
  | succ f ih =>
    intro defs msgs off h
    by_cases hoff : off < endOfData
    · unfold parseLoop
      simp only [hoff, if_true]
      rw [hag off h]
      by_cases h7 : (b2 off).testBit 7
      · simp only [h7, if_true]
        cases hdef : defs (b2 off / 32 % 4) with
        | none => simp only; exact ih defs msgs (off + 1) (by omega)
        | some dfn =>
          simp only
          rw [readDataMessage_congr b1 b2 lo hag dfn (off + 1) (by omega)]
          exact ih defs _ _
            (le_trans (by omega) (readDataMessage_snd_ge b2 dfn (off + 1)))
      · simp only [h7, if_false, Bool.false_eq_true]
        by_cases h6 : (b2 off).testBit 6
        · simp only [h6, if_true]
          rw [hag (off + 2) (by omega),
            u16_congr b1 b2 lo hag _ (off + 3) (by omega),
            hag (off + 5) (by omega),
            readFieldDefs_congr b1 b2 lo hag (b2 (off + 5)) (off + 6) []
              (by omega)]
          by_cases h5 : (b2 off).testBit 5
          · simp only [h5, if_true]
            have hrf2 : (readFieldDefs b2 (b2 (off + 5)) (off + 6) []).2 =
                off + 6 + 3 * b2 (off + 5) := readFieldDefs_snd b2 _ _ _
            rw [hag _ (by rw [hrf2]; omega),
              readDevFieldDefs_congr b1 b2 lo hag _ _ [] (by rw [hrf2]; omega)]
            apply ih
            rw [readDevFieldDefs_snd, hrf2]
            omega
          · simp only [h5, if_false, Bool.false_eq_true]
            apply ih
            rw [readFieldDefs_snd]
            omega
        · simp only [h6, if_false, Bool.false_eq_true]
          cases hdef : defs (b2 off % 16) with
          | none => rfl
          | some dfn =>
            simp only
            rw [readDataMessage_congr b1 b2 lo hag dfn (off + 1) (by omega)]
            exact ih defs _ _
              (le_trans (by omega) (readDataMessage_snd_ge b2 dfn (off + 1)))
    · unfold parseLoop
      simp [hoff]

/-! ## Claim C6: compressed-timestamp record handling -/

/-- A buffer with a definition for local type 0 (global 20, one uint32
field 253), a compressed-timestamp header `0xA0` (key 1, undefined)
that is skipped with no bytes consumed beyond the header, then a
compressed-timestamp header `0x9F` (key 0, all five time-offset bits
set) that decodes one data message. -/
def bufW6 : ℕ → ℕ := bufOfList
  [12, 16, 0, 0, 15, 0, 0, 0, 46, 70, 73, 84,
   64, 0, 0, 20, 0, 1, 253, 4, 134,
   160,
   159, 1, 0, 0, 0]

/-- The single message decoded from `bufW6`. -/
def msgsW6 : List RawMessage := [⟨20, [(253, some (.num 1))]⟩]

/-- C6: a record header with bit 7 set selects its local key from bits
5-6 (so only keys 0-3 are reachable); with no stored definition the
record is skipped consuming only the header byte; with a stored
definition exactly one data message is decoded with it; the low 5 bits
are ignored (any buffer agreeing beyond the header byte and on bit 7
and bits 5-6 of it scans identically); and the concrete stream above
decodes to exactly one message. -/
theorem claim6_compressed (buf : ℕ → ℕ) (endOfData fuel : ℕ) (defs : DefTable)
    (msgs : List RawMessage) (off : ℕ)
    (hoff : off < endOfData)
    (h7 : (buf off).testBit 7 = true) :
    (buf off / 32 % 4 < 4) ∧
    (defs (buf off / 32 % 4) = none →
      parseLoop buf endOfData (fuel + 1) defs msgs off =
        parseLoop buf endOfData fuel defs msgs (off + 1)) ∧
    (∀ dfn, defs (buf off / 32 % 4) = some dfn →
      parseLoop buf endOfData (fuel + 1) defs msgs off =
        parseLoop buf endOfData fuel defs
          (msgs ++ [(readDataMessage buf dfn (off + 1)).1])
          (readDataMessage buf dfn (off + 1)).2) ∧
    (∀ b2 : ℕ → ℕ, (∀ j, off < j → b2 j = buf j) →
      (b2 off).testBit 7 = true → b2 off / 32 % 4 = buf off / 32 % 4 →
      parseLoop b2 endOfData (fuel + 1) defs msgs off =
        parseLoop buf endOfData (fuel + 1) defs msgs off) ∧
    parseFIT bufW6 = .ok msgsW6 := by
  refine ⟨Nat.mod_lt _ (by norm_num), ?_, ?_, ?_, rfl⟩
  · intro hdef
    conv_lhs => rw [parseLoop]
    simp [hoff, h7, hdef]
  · intro dfn hdef
    conv_lhs => rw [parseLoop]
    simp [hoff, h7, hdef]
  · intro b2 hag h7b hkey
    have hag2 : ∀ j, off + 1 ≤ j → b2 j = buf j := fun j hj => hag j (by omega)
    unfold parseLoop
    simp only [hoff, if_true, h7, h7b]
    rw [hkey]
    cases hdef : defs (buf off / 32 % 4) with
    | none =>
      simp only
      exact parseLoop_congr b2 buf (off + 1) hag2 endOfData fuel defs msgs
        (off + 1) le_rfl
    | some dfn =>
      simp only
      rw [readDataMessage_congr b2 buf (off + 1) hag2 dfn (off + 1) le_rfl]
      exact parseLoop_congr b2 buf (off + 1) hag2 endOfData fuel defs _ _
        (readDataMessage_snd_ge buf dfn (off + 1))

/-- Concrete instance of C6: at offset 21 of `bufW6` (compressed header
`0xA0`, key 1, no stored definition) the scan skips exactly the header
byte and continues at offset 22. -/
theorem claim6_compressed_witness :
    parseLoop bufW6 27 5 (DefTable.set (fun _ => none) 0
        ⟨20, [⟨253, 4, 134⟩], [], true⟩) [] 21 =
      parseLoop bufW6 27 4 (DefTable.set (fun _ => none) 0
        ⟨20, [⟨253, 4, 134⟩], [], true⟩) [] 22 :=
  (claim6_compressed bufW6 27 4 _ [] 21 (by decide) (by decide)).2.1 rfl

/-! ## Characterization of a successful extraction -/

/-- The record partition (global message type 20). -/
def recordsOf (msgs : List RawMessage) : List RawMessage :=
  msgs.filter (fun m => decide (m.mesgNum = 20))

/-- The session partition (global message type 18). -/
def sessionsOf (msgs : List RawMessage) : List RawMessage :=
  msgs.filter (fun m => decide (m.mesgNum = 18))

/-- The dive-summary partition (global message type 268). -/
def summariesOf (msgs : List RawMessage) : List RawMessage :=
  msgs.filter (fun m => decide (m.mesgNum = 268))

theorem extractDive_ok_spec (msgs : List RawMessage) (d : Dive)
    (hok : extractDive msgs = .ok d) :
    d.samples = backfill ((recordsOf msgs).map
      (mkSample (msgField (recordsOf msgs) 253))) ∧
    d.startDate = garminTimestampToDate
      (jsOr (msgField (sessionsOf msgs) 2) (msgField (recordsOf msgs) 253)) ∧
    d.totalTime = (if jsTruthy (msgField (sessionsOf msgs) 7) then
        scaled1000 (msgField (sessionsOf msgs) 7)
      else (d.samples.getLast?.bind DiveSample.elapsed).map (fun z => (z : ℚ))) ∧
    d.maxDepth = (if jsTruthy (msgField (summariesOf msgs) 3) then
        scaled1000 (msgField (summariesOf msgs) 3)
      else jsMathMax (d.samples.map (fun s => s.depth.getD 0))) ∧
    d.avgDepth = (if jsTruthy (msgField (summariesOf msgs) 2) then
        scaled1000 (msgField (summariesOf msgs) 2)
      else none) := by
  have h := hok
  unfold extractDive at h
  cases hf : msgs.filter (fun m => decide (m.mesgNum = 20)) with
  | nil =>
    simp only [hf] at h
    exact absurd h (by simp)
  | cons r0 rest =>
    simp only [hf] at h
    injection h with h2
    subst h2
    unfold recordsOf sessionsOf summariesOf
    rw [hf]
    exact ⟨rfl, rfl, rfl, rfl, rfl⟩

/-! ## Claim C7: sample construction and unit scaling -/

/-- C7: the sample list is built from the record partition in source
order (one sample per record, then backfilled); each sample's
`elapsed` is that record's timestamp minus the first record's
timestamp, `depth` is the raw depth over 1000 when present (any
present raw value `v` yields exactly `v / 1000`) and absent
otherwise, `ascentRate` is the raw rate over 1000 when present, and
`temperature`, NDL and CNS are copied verbatim. -/
theorem claim7_sample_construction (msgs : List RawMessage) (d : Dive)
    (hok : extractDive msgs = .ok d) :
    d.samples.length = (recordsOf msgs).length ∧
    d.samples = backfill ((recordsOf msgs).map
      (mkSample (msgField (recordsOf msgs) 253))) ∧
    (∀ (i : ℕ) (r : RawMessage), (recordsOf msgs)[i]? = some r →
      (∀ t t0 : ℤ, intVal (r.fieldVal 253) = some t →
        intVal (msgField (recordsOf msgs) 253) = some t0 →
        (d.samples[i]?).map DiveSample.elapsed = some (some (t - t0))) ∧
      (∀ v : ℤ, r.fieldVal 92 = some (.num v) →
        (d.samples[i]?).map DiveSample.depth = some (some ((v : ℚ) / 1000))) ∧
      (r.fieldVal 92 = none →
        (d.samples[i]?).map DiveSample.depth = some none) ∧
      (∀ v : ℤ, r.fieldVal 127 = some (.num v) →
        (d.samples[i]?).map DiveSample.ascentRate = some (some ((v : ℚ) / 1000))) ∧
      (d.samples[i]?).map DiveSample.temperature = some (r.fieldVal 13) ∧
      (d.samples[i]?).map DiveSample.ndl = some (r.fieldVal 96) ∧
      (d.samples[i]?).map DiveSample.cns = some (r.fieldVal 93)) := by
  obtain ⟨hs, -, -, -, -⟩ := extractDive_ok_spec msgs d hok
  refine ⟨by rw [hs, backfill_length, List.length_map], hs, ?_⟩
  intro i r hr
  have hprei : ((recordsOf msgs).map
      (mkSample (msgField (recordsOf msgs) 253)))[i]? =
      some (mkSample (msgField (recordsOf msgs) 253) r) := by
    rw [List.getElem?_map, hr]
    rfl
  have hmap : ∀ (f : DiveSample → Option FitVal)
      (hf : ∀ p c, f (backfillStep p c) = f c),
      (d.samples[i]?).map f =
        some (f (mkSample (msgField (recordsOf msgs) 253) r)) := by
    intro f hf
    rw [hs, backfill_map_field f hf, hprei]
    rfl
  refine ⟨?_, ?_, ?_, ?_,
    hmap DiveSample.temperature backfillStep_temperature,
    hmap DiveSample.ndl backfillStep_ndl,
    hmap DiveSample.cns backfillStep_cns⟩
  · intro t t0 ht ht0
    rw [hs, backfill_map_field DiveSample.elapsed backfillStep_elapsed, hprei]
    simp [mkSample, ht, ht0]
  · intro v hv
    rw [hs, backfill_map_field DiveSample.depth backfillStep_depth, hprei]
    simp [mkSample, hv, scaled1000]
  · intro hv
    rw [hs, backfill_map_field DiveSample.depth backfillStep_depth, hprei]
    simp [mkSample, hv, scaled1000]
  · intro v hv
    have hsr : (mkSample (msgField (recordsOf msgs) 253) r).ascentRate =
        some ((v : ℚ) / 1000) := by
      simp [mkSample, hv, scaled1000]
    rw [hs, backfill_rate_some _ i _ _ hprei hsr]
    simp [hsr]

/-- Record list for the C7 instance: two records with full fields. -/
def msgsW7 : List RawMessage :=
  [⟨20, [(253, some (.num 1000)), (92, some (.num 5000)),
         (127, some (.num 250)), (13, some (.num 21)),
         (96, some (.num 300)), (93, some (.num 7))]⟩,
   ⟨20, [(253, some (.num 1060)), (92, some (.num 4000)),
         (127, some (.num 125)), (13, some (.num 20)),
         (96, some (.num 280)), (93, some (.num 8))]⟩]

/-- The dive extracted from `msgsW7`. -/
def diveW7 : Dive := (extractDive msgsW7).toOption.getD default

/-- Concrete instance of C7: the second sample of `msgsW7` has
`elapsed = 1060 - 1000` and `depth = 4000 / 1000`. -/
theorem claim7_sample_construction_witness :
    (diveW7.samples[1]?).map DiveSample.elapsed =
      some (some ((1060 : ℤ) - 1000)) ∧
    (diveW7.samples[1]?).map DiveSample.depth =
      some (some (((4000 : ℤ) : ℚ) / 1000)) :=
  ⟨((claim7_sample_construction msgsW7 diveW7 rfl).2.2 1
      ⟨20, [(253, some (.num 1060)), (92, some (.num 4000)),
            (127, some (.num 125)), (13, some (.num 20)),
            (96, some (.num 280)), (93, some (.num 8))]⟩ rfl).1 1060 1000 rfl rfl,
   ((claim7_sample_construction msgsW7 diveW7 rfl).2.2 1
      ⟨20, [(253, some (.num 1060)), (92, some (.num 4000)),
            (127, some (.num 125)), (13, some (.num 20)),
            (96, some (.num 280)), (93, some (.num 8))]⟩ rfl).2.1 4000 rfl⟩

/-! ## Claim C8: aggregation fallback ladder

The code guards each summary/session field with JavaScript truthiness
(`session[7] ? ... : ...`), so a field that is present with value 0 is
treated like an absent one.  The claim's "whenever that field is
present" is therefore refuted by a present zero value. -/

/-- Counterexample input for C8: the session's total-elapsed-time field
is present with raw value 0; the two records are 60 seconds apart. -/
def msgsC8 : List RawMessage :=
  [⟨18, [(7, some (.num 0))]⟩,
   ⟨20, [(253, some (.num 1000))]⟩,
   ⟨20, [(253, some (.num 1060))]⟩]

/-- C8 counterexample: the session total-elapsed-time field is present
(raw value 0), yet `totalTime` is the last sample's elapsed time (60 s)
rather than the present field divided by 1000 (which is 0). -/
theorem claim8_fallback_cex :
    msgField (sessionsOf msgsC8) 7 = some (.num 0) ∧
    (extractDive msgsC8).map Dive.totalTime = .ok (some ((60 : ℤ) : ℚ)) ∧
    some (((0 : ℤ) : ℚ) / 1000) ≠ some ((60 : ℤ) : ℚ) := by
  refine ⟨rfl, rfl, ?_⟩
  simp

/-- C8 (amended): the session/summary field is used only when present
with a nonzero (truthy) value; a present zero value takes the fallback
branch exactly like an absent field.  With that amendment the ladder is
as claimed: `totalTime` falls back to the last sample's elapsed time,
`maxDepth` to the sample maximum with absent depths read as 0, and
`avgDepth` to "no value". -/
theorem claim8_fallback_amended (msgs : List RawMessage) (d : Dive)
    (hok : extractDive msgs = .ok d) :
    (∀ v : ℤ, msgField (sessionsOf msgs) 7 = some (.num v) → v ≠ 0 →
      d.totalTime = some ((v : ℚ) / 1000)) ∧
    (msgField (sessionsOf msgs) 7 = none ∨
        msgField (sessionsOf msgs) 7 = some (.num 0) →
      d.totalTime =
        (d.samples.getLast?.bind DiveSample.elapsed).map (fun z => (z : ℚ))) ∧
    (∀ v : ℤ, msgField (summariesOf msgs) 3 = some (.num v) → v ≠ 0 →
      d.maxDepth = some ((v : ℚ) / 1000)) ∧
    (msgField (summariesOf msgs) 3 = none ∨
        msgField (summariesOf msgs) 3 = some (.num 0) →
      d.maxDepth = jsMathMax (d.samples.map (fun s => s.depth.getD 0))) ∧
    (∀ v : ℤ, msgField (summariesOf msgs) 2 = some (.num v) → v ≠ 0 →
      d.avgDepth = some ((v : ℚ) / 1000)) ∧
    (msgField (summariesOf msgs) 2 = none ∨
        msgField (summariesOf msgs) 2 = some (.num 0) →
      d.avgDepth = none) := by
  obtain ⟨-, -, ht, hm, ha⟩ := extractDive_ok_spec msgs d hok
  refine ⟨?_, ?_, ?_, ?_, ?_, ?_⟩
  · intro v hv hvne
    rw [ht, hv]
    simp [jsTruthy, scaled1000, hvne]
  · rintro (h0 | h0) <;> rw [ht, h0] <;> simp [jsTruthy]
  · intro v hv hvne
    rw [hm, hv]
    simp [jsTruthy, scaled1000, hvne]
  · rintro (h0 | h0) <;> rw [hm, h0] <;> simp [jsTruthy]
  · intro v hv hvne
    rw [ha, hv]
    simp [jsTruthy, scaled1000, hvne]
  · rintro (h0 | h0) <;> rw [ha, h0] <;> simp [jsTruthy]

/-- Input for the amended-C8 instance: a nonzero total-elapsed-time, a
present-but-zero avg-depth, and one record. -/
def msgsW8 : List RawMessage :=
  [⟨18, [(7, some (.num 5000))]⟩,
   ⟨268, [(2, some (.num 0)), (3, some (.num 12000))]⟩,
   ⟨20, [(253, some (.num 1000))]⟩]

/-- The dive extracted from `msgsW8`. -/
def diveW8 : Dive := (extractDive msgsW8).toOption.getD default

/-- Concrete instance of amended C8: nonzero session field 7 gives
`totalTime = 5000 / 1000`; the present-but-zero avg-depth falls back to
"no value"; the nonzero max-depth gives `12000 / 1000`. -/
theorem claim8_fallback_amended_witness :
    diveW8.totalTime = some (((5000 : ℤ) : ℚ) / 1000) ∧
    diveW8.avgDepth = none ∧
    diveW8.maxDepth = some (((12000 : ℤ) : ℚ) / 1000) :=
  ⟨(claim8_fallback_amended msgsW8 diveW8 rfl).1 5000 rfl (by norm_num),
   (claim8_fallback_amended msgsW8 diveW8 rfl).2.2.2.2.2 (Or.inr rfl),
   (claim8_fallback_amended msgsW8 diveW8 rfl).2.2.1 12000 rfl (by norm_num)⟩

/-! ## Claim C9: Garmin-epoch conversion and startDate selection

The conversion itself behaves as claimed (0/absent gives "no value",
any other numeric timestamp shifts by 631065600).  But `startDate` is
computed as `garminTimestampToDate(session[2] || firstTs)`: a present
start-time of raw value 0 is falsy, so the code falls back to the first
record's timestamp instead of converting the present field (which would
give "no value"). -/

/-- Counterexample input for C9: the session start-time field is
present with raw value 0; the first record's timestamp is 1000. -/
def msgsC9 : List RawMessage :=
  [⟨18, [(2, some (.num 0))]⟩,
   ⟨20, [(253, some (.num 1000))]⟩]

/-- C9 counterexample: the start-time field is present, its conversion
is "no value", yet `startDate` is the converted first-record timestamp
`1000 + 631065600` — so `startDate` is not the conversion of the
present start-time field. -/
theorem claim9_startdate_cex :
    msgField (sessionsOf msgsC9) 2 = some (.num 0) ∧
    garminTimestampToDate (some (.num 0)) = none ∧
    (extractDive msgsC9).map Dive.startDate = .ok (some 631066600) :=
  ⟨rfl, rfl, rfl⟩

/-- C9 (amended): converting a numeric FIT timestamp `t ≠ 0` yields
`t + 631065600`, and 0/absent converts to "no value"; `startDate` is
the conversion of the session start-time when that field is present
and nonzero, and otherwise (absent or zero) the conversion of the
first record's timestamp. -/
theorem claim9_startdate_amended (msgs : List RawMessage) (d : Dive)
    (hok : extractDive msgs = .ok d) :
    (∀ t : ℤ, t ≠ 0 → garminTimestampToDate (some (.num t)) =
      some (t + 631065600)) ∧
    garminTimestampToDate (some (.num 0)) = none ∧
    garminTimestampToDate none = none ∧
    (∀ t : ℤ, msgField (sessionsOf msgs) 2 = some (.num t) → t ≠ 0 →
      d.startDate = some (t + 631065600)) ∧
    (msgField (sessionsOf msgs) 2 = none ∨
        msgField (sessionsOf msgs) 2 = some (.num 0) →
      d.startDate = garminTimestampToDate (msgField (recordsOf msgs) 253)) := by
  obtain ⟨-, hsd, -, -, -⟩ := extractDive_ok_spec msgs d hok
  refine ⟨?_, rfl, rfl, ?_, ?_⟩
  · intro t ht
    simp [garminTimestampToDate, jsTruthy, ht]
  · intro t h2 ht
    rw [hsd, h2]
    simp [jsOr, garminTimestampToDate, jsTruthy, ht]
  · rintro (h0 | h0) <;> rw [hsd, h0] <;> simp [jsOr, jsTruthy]

/-- Input for the amended-C9 instance: a nonzero start-time field. -/
def msgsW9 : List RawMessage :=
  [⟨18, [(2, some (.num 500))]⟩,
   ⟨20, [(253, some (.num 1000))]⟩]

/-- The dive extracted from `msgsW9`. -/
def diveW9 : Dive := (extractDive msgsW9).toOption.getD default

/-- Concrete instance of amended C9: the present nonzero start-time 500
gives `startDate = 500 + 631065600`. -/
theorem claim9_startdate_amended_witness :
    diveW9.startDate = some ((500 : ℤ) + 631065600) :=
  (claim9_startdate_amended msgsW9 diveW9 rfl).2.2.2.1 500 rfl (by norm_num)

end GraminDive
